import Mathlib

/-!
Verification of the instance-lifecycle manager of the `dioxus-bevy` crate
(`src/lib.rs`).

The development shallowly embeds the registry of renderer slots
(`BevyInstanceManager` / `BevyInstanceManagerInner`), the per-slot state
(`BevyInstance`), and the paint adapter (`ManagedBevyPaintSource`) as pure
Lean functions over an explicit state record.

Modelling conventions, chosen once and used throughout:

* Instance identities (`ScopeId`), paint-source ids (`u64`) and message
  payloads (`Box<dyn Any + Send>`) are modelled as `Nat` — the claims only
  depend on their identity, never on their structure.
* The `ref_count : usize` field uses release-profile Rust semantics: both
  `+= 1` and `-= 1` are arithmetic modulo `2 ^ 64` (`USIZE`).  The
  debug-profile overflow check on `-= 1`, which panics when the count is
  already `0`, is modelled separately by `checkedDecrement` /
  `BevyInstanceManager.releaseChecked` (where `none` models the panic).
* A concrete renderer behind `Box<dyn BevyRenderer>` is modelled by the
  instrumented `Renderer` record: `tok` identifies which deferred-factory
  invocation constructed it, `msgs` is the log of payloads received through
  `handle_message`, and the counters record how often each trait method ran.
  This models an arbitrary renderer: the claims under check only concern
  which renderer the registry invokes and when.
* The one-shot closure `factory: Option<Box<dyn FnOnce(..)>>` held by the
  paint adapter is modelled by `Adapter.factory : Option Nat`, holding the
  token the factory will stamp on the renderer it constructs; `Option.take`
  in the Rust source corresponds to setting the field to `none`.
* `MgrState.invokedFor` is ghost instrumentation (not part of the Rust
  state): it counts, per identity, how many deferred-factory invocations
  ever happened for that identity's slot, so that at-most-once claims can
  be stated directly.
-/

/-- Number of values of the 64-bit `usize` type. -/
def USIZE : Nat := 2 ^ 64

/-- Pointwise update of a total map, used to model `HashMap` insertion and
in-place mutation through `get_mut`. -/
def upd {α : Type} (f : Nat → α) (k : Nat) (v : α) : Nat → α :=
  fun i => if i = k then v else f i

theorem upd_self {α : Type} (f : Nat → α) (k : Nat) (v : α) : upd f k v k = v := by
  simp [upd]

theorem upd_other {α : Type} (f : Nat → α) (k : Nat) (v : α) (i : Nat) (h : i ≠ k) :
    upd f k v i = f i := by
  simp [upd, h]

/-- Instrumented model of a value of `Box<dyn BevyRenderer>`.  `tok`
identifies the deferred-factory invocation that constructed it; the other
fields log what the registry asked the renderer to do. -/
structure Renderer where
  tok : Nat
  msgs : List Nat
  resumes : Nat
  suspends : Nat
  renders : Nat
  shutdowns : Nat
deriving DecidableEq

/-- `BevyRenderer::handle_message`: the renderer receives the payload. -/
def Renderer.handle_message (r : Renderer) (m : Nat) : Renderer :=
  { r with msgs := r.msgs ++ [m] }

/-- `BevyRenderer::resume`: the renderer reacquires GPU resources. -/
def Renderer.resume (r : Renderer) : Renderer :=
  { r with resumes := r.resumes + 1 }

/-- `BevyRenderer::suspend`. -/
def Renderer.suspend (r : Renderer) : Renderer :=
  { r with suspends := r.suspends + 1 }

/-- `BevyRenderer::render`: returns the updated renderer and the produced
texture handle.  The concrete handle value is irrelevant to the claims; the
instrumented model returns the renderer's token. -/
def Renderer.render (r : Renderer) : Renderer × Option Nat :=
  ({ r with renders := r.renders + 1 }, some r.tok)

/-- `BevyRenderer::shutdown`. -/
def Renderer.shutdown (r : Renderer) : Renderer :=
  { r with shutdowns := r.shutdowns + 1 }

/-- Invoking a deferred factory (the `FnOnce(&DeviceHandle)` closure):
constructs a fresh renderer stamped with the factory's token. -/
def mkRenderer (tok : Nat) : Renderer :=
  { tok := tok, msgs := [], resumes := 0, suspends := 0, renders := 0, shutdowns := 0 }

/-- The factory-holding part of `ManagedBevyPaintSource`: the one-shot
factory still pending (`some tok`) or already consumed (`none`). -/
structure Adapter where
  factory : Option Nat
deriving DecidableEq

/-- `BevyInstance` from the source: a renderer slot. -/
structure BevyInstance where
  renderer : Option Renderer
  paint_source_id : Option Nat
  ref_count : Nat
deriving DecidableEq

/-- `impl Drop for BevyInstance`: on destruction of a slot, call `shutdown`
on the renderer if one was constructed; otherwise do nothing. -/
def BevyInstance.drop (inst : BevyInstance) : BevyInstance :=
  match inst.renderer with
  | some r => { inst with renderer := some (Renderer.shutdown r) }
  | none => inst

/-- Number of `shutdown` calls the slot's renderer has received (0 when no
renderer was ever constructed). -/
def shutdownCount (inst : BevyInstance) : Nat :=
  match inst.renderer with
  | some r => r.shutdowns
  | none => 0

/-- The full registry state: `BevyInstanceManagerInner.instances`, plus the
paint adapters registered with the host (keyed by the identity they capture),
the host's fresh paint-source-id supply, a fresh-token supply for factories,
and the ghost per-identity factory-invocation counter. -/
structure MgrState where
  instances : Nat → Option BevyInstance
  adapters : Nat → Option Adapter
  nextPaintId : Nat
  nextTok : Nat
  invokedFor : Nat → Nat

/-- The state right after `BevyInstanceManager::new()`: empty registry. -/
def init : MgrState :=
  { instances := fun _ => none,
    adapters := fun _ => none,
    nextPaintId := 0,
    nextTok := 0,
    invokedFor := fun _ => 0 }

/-- `BevyInstanceManager::get_or_create` (src/lib.rs lines 180–211).
Returns the new state and the returned paint-source id; `none` in the second
component models the `expect("Paint source not registered")` panic on the
existing-slot path.  On the existing-slot path the caller's factory argument
is dropped without being wrapped or invoked.  On the absent path a fresh
adapter holding the one-shot factory (token `nextTok`) is registered with
the host (fresh id `nextPaintId`) and a slot with no renderer and count 1 is
inserted. -/
def BevyInstanceManager.get_or_create (s : MgrState) (id : Nat) : MgrState × Option Nat :=
  match s.instances id with
  | some inst =>
      let inst2 : BevyInstance := { inst with ref_count := (inst.ref_count + 1) % USIZE }
      ({ s with instances := upd s.instances id (some inst2) }, inst.paint_source_id)
  | none =>
      let inst2 : BevyInstance :=
        { renderer := none, paint_source_id := some s.nextPaintId, ref_count := 1 }
      ({ instances := upd s.instances id (some inst2),
         adapters := upd s.adapters id (some { factory := some s.nextTok }),
         nextPaintId := s.nextPaintId + 1,
         nextTok := s.nextTok + 1,
         invokedFor := s.invokedFor },
       some s.nextPaintId)

/-- `BevyInstanceManager::release` (src/lib.rs lines 216–226), with the
release-profile semantics of `ref_count -= 1`: subtraction modulo `2 ^ 64`.
The slot is deliberately not removed, even at count zero. -/
def BevyInstanceManager.release (s : MgrState) (id : Nat) : MgrState :=
  match s.instances id with
  | some inst =>
      let inst2 : BevyInstance :=
        { inst with ref_count := (inst.ref_count + (USIZE - 1)) % USIZE }
      { s with instances := upd s.instances id (some inst2) }
  | none => s

/-- Debug-profile semantics of the `usize` subtraction `n - 1`: Rust's
overflow check panics (modelled by `none`) when `n` is already `0`. -/
def checkedDecrement (n : Nat) : Option Nat :=
  if n = 0 then none else some (n - 1)

/-- `BevyInstanceManager::release` under debug-profile overflow checking:
`none` models the panic of `ref_count -= 1` on a slot whose count is 0. -/
def BevyInstanceManager.releaseChecked (s : MgrState) (id : Nat) : Option MgrState :=
  match s.instances id with
  | some inst =>
      match checkedDecrement inst.ref_count with
      | some c =>
          some { s with instances := upd s.instances id (some { inst with ref_count := c }) }
      | none => none
  | none => some s

/-- `BevyInstanceManager::send_message` (src/lib.rs lines 231–239): forward
the payload through `handle_message` when the slot exists and its renderer
is constructed; otherwise drop the message, leaving the state untouched. -/
def BevyInstanceManager.send_message (s : MgrState) (id : Nat) (m : Nat) : MgrState :=
  match s.instances id with
  | some inst =>
      match inst.renderer with
      | some r =>
          let inst2 : BevyInstance := { inst with renderer := some (r.handle_message m) }
          { s with instances := upd s.instances id (some inst2) }
      | none => s
  | none => s

/-- `ManagedBevyPaintSource::resume` (src/lib.rs lines 83–97) for the
adapter capturing `id`, when the host supplies a device handle.  When no
adapter was ever registered for `id` there is nothing for the host to call,
so the state is unchanged.  Otherwise: look the slot up; if the renderer is
absent and the one-shot factory is still held, consume the factory to
construct the renderer; then forward `resume` to the renderer if
constructed.  The ghost counter `invokedFor id` records the factory
invocation. -/
def ManagedBevyPaintSource.resume (s : MgrState) (id : Nat) : MgrState :=
  match s.adapters id with
  | none => s
  | some ad =>
      match s.instances id with
      | none => s
      | some inst =>
          match inst.renderer, ad.factory with
          | none, some tok =>
              let inst2 : BevyInstance :=
                { inst with renderer := some (Renderer.resume (mkRenderer tok)) }
              { s with
                instances := upd s.instances id (some inst2),
                adapters := upd s.adapters id (some { factory := none }),
                invokedFor := upd s.invokedFor id (s.invokedFor id + 1) }
          | some r, fac =>
              let inst2 : BevyInstance := { inst with renderer := some (Renderer.resume r) }
              { s with
                instances := upd s.instances id (some inst2),
                adapters := upd s.adapters id (some { factory := fac }) }
          | none, none => s

/-- `ManagedBevyPaintSource::suspend` (src/lib.rs lines 99–106): forward to
the renderer's `suspend` if constructed, no-op otherwise. -/
def ManagedBevyPaintSource.suspend (s : MgrState) (id : Nat) : MgrState :=
  match s.instances id with
  | some inst =>
      match inst.renderer with
      | some r =>
          let inst2 : BevyInstance := { inst with renderer := some (Renderer.suspend r) }
          { s with instances := upd s.instances id (some inst2) }
      | none => s
  | none => s

/-- `ManagedBevyPaintSource::render` (src/lib.rs lines 108–125),
parametrised by the renderer's own `render` behaviour `rr` (a
`&mut self` method: it may update the renderer and returns an optional
texture handle).  When the slot is absent or the renderer is not yet
constructed, the adapter returns `none` and touches nothing. -/
def renderWith (rr : Renderer → Renderer × Option Nat) (s : MgrState) (id : Nat) :
    MgrState × Option Nat :=
  match s.instances id with
  | some inst =>
      match inst.renderer with
      | some r =>
          let inst2 : BevyInstance := { inst with renderer := some (rr r).1 }
          ({ s with instances := upd s.instances id (some inst2) }, (rr r).2)
      | none => (s, none)
  | none => (s, none)

/-- `ManagedBevyPaintSource::render` with the instrumented renderer. -/
def ManagedBevyPaintSource.render (s : MgrState) (id : Nat) : MgrState × Option Nat :=
  renderWith Renderer.render s id

/-- The operations a UI/host run can perform against one registry. -/
inductive Op where
  | create (id : Nat)
  | release (id : Nat)
  | suspend (id : Nat)
  | render (id : Nat)
  | resume (id : Nat)
  | send (id : Nat) (m : Nat)
deriving DecidableEq

/-- One step of the registry state machine. -/
def step (s : MgrState) : Op → MgrState
  | Op.create id => (BevyInstanceManager.get_or_create s id).1
  | Op.release id => BevyInstanceManager.release s id
  | Op.suspend id => ManagedBevyPaintSource.suspend s id
  | Op.render id => (ManagedBevyPaintSource.render s id).1
  | Op.resume id => ManagedBevyPaintSource.resume s id
  | Op.send id m => BevyInstanceManager.send_message s id m

/-- Run a sequence of operations from a state. -/
def run (s : MgrState) (ops : List Op) : MgrState :=
  ops.foldl step s

theorem run_nil (s : MgrState) : run s [] = s := rfl

theorem run_append (s : MgrState) (l : List Op) (op : Op) :
    run s (l ++ [op]) = step (run s l) op := by
  simp [run, List.foldl_append]

/-- The renderer currently installed in the slot for `id`. -/
def rendererOf (s : MgrState) (id : Nat) : Option Renderer :=
  (s.instances id).bind (fun inst => inst.renderer)

/-- Effective reference count of the slot for `id` (0 when absent). -/
def refCountVal (s : MgrState) (id : Nat) : Nat :=
  match s.instances id with
  | some inst => inst.ref_count
  | none => 0

/-- The token currently associated with the slot for `id`: the pending
factory's token if not yet consumed, else the constructed renderer's. -/
def slotTok (s : MgrState) (id : Nat) : Option Nat :=
  match s.adapters id with
  | none => none
  | some ad =>
      match ad.factory with
      | some t => some t
      | none => (rendererOf s id).map (fun r => r.tok)

/-- Number of `Op.create id` operations in the list. -/
def nCreates (id : Nat) : List Op → Nat
  | [] => 0
  | Op.create i :: rest => (if i = id then 1 else 0) + nCreates id rest
  | _ :: rest => nCreates id rest

/-- Number of `Op.release id` operations in the list. -/
def nReleases (id : Nat) : List Op → Nat
  | [] => 0
  | Op.release i :: rest => (if i = id then 1 else 0) + nReleases id rest
  | _ :: rest => nReleases id rest

/-- Whether the list contains an `Op.create id`. -/
def hasCreate (id : Nat) : List Op → Bool
  | [] => false
  | Op.create i :: rest => if i = id then true else hasCreate id rest
  | _ :: rest => hasCreate id rest

/-- Whether the list contains an `Op.resume id`. -/
def hasResume (id : Nat) : List Op → Bool
  | [] => false
  | Op.resume i :: rest => if i = id then true else hasResume id rest
  | _ :: rest => hasResume id rest

/-- Whether the list contains an `Op.create id` followed (strictly later) by
an `Op.resume id`. -/
def createThenResume (id : Nat) : List Op → Bool
  | [] => false
  | Op.create i :: rest =>
      (if i = id then hasResume id rest else false) || createThenResume id rest
  | _ :: rest => createThenResume id rest



/-!
Registry invariant.  It ties together the slot table, the adapters, the
ghost invocation counter, token freshness and the stored paint-source ids,
and is preserved by every registry operation.
-/

/-- Invariant of reachable registry states. -/
structure RegInv (s : MgrState) : Prop where
  link : ∀ id, (s.instances id).isSome = (s.adapters id).isSome
  pend : ∀ id ad t, s.adapters id = some ad → ad.factory = some t →
    s.invokedFor id = 0 ∧ rendererOf s id = none ∧ t < s.nextTok
  used : ∀ id ad, s.adapters id = some ad → ad.factory = none →
    s.invokedFor id = 1 ∧ ∃ r, rendererOf s id = some r ∧ r.tok < s.nextTok
  fresh0 : ∀ id, s.adapters id = none → s.invokedFor id = 0
  inj : ∀ a b ta tb, a ≠ b → slotTok s a = some ta → slotTok s b = some tb → ta ≠ tb
  noShut : ∀ id r, rendererOf s id = some r → r.shutdowns = 0
  pid : ∀ id inst, s.instances id = some inst → (inst.paint_source_id).isSome

theorem regInv_init : RegInv init := by
  refine ⟨?_, ?_, ?_, ?_, ?_, ?_, ?_⟩ <;> intros <;> simp_all [init, rendererOf, slotTok]

/-- Any token currently associated with a slot is below the fresh supply. -/
theorem RegInv.tokLt {s : MgrState} (inv : RegInv s) (i u : Nat) (h : slotTok s i = some u) :
    u < s.nextTok := by
  cases hA : s.adapters i with
  | none => simp [slotTok, hA] at h
  | some ad =>
    cases hf : ad.factory with
    | some tk =>
      obtain ⟨_, _, hlt⟩ := inv.pend i ad tk hA hf
      simp only [slotTok, hA, hf] at h
      simp at h
      omega
    | none =>
      obtain ⟨_, r, hrr, hlt⟩ := inv.used i ad hA hf
      simp only [slotTok, hA, hf, hrr] at h
      simp at h
      omega

/-- Transfer of the invariant along a state change that keeps the adapters,
the counters and the shape of every slot: only renderer-internal state other
than `tok` and `shutdowns`, and reference counts, may change. -/
theorem RegInv.transfer {s s2 : MgrState} (inv : RegInv s)
    (hinsSome : ∀ i, (s2.instances i).isSome = (s.instances i).isSome)
    (ha : s2.adapters = s.adapters)
    (hrt : ∀ i, (rendererOf s2 i).map (fun r => r.tok) = (rendererOf s i).map (fun r => r.tok))
    (hsh : ∀ i r2, rendererOf s2 i = some r2 →
      ∃ r1, rendererOf s i = some r1 ∧ r2.shutdowns = r1.shutdowns)
    (hv : s2.invokedFor = s.invokedFor)
    (hn : s2.nextTok = s.nextTok)
    (hp : ∀ i inst, s2.instances i = some inst → (inst.paint_source_id).isSome) :
    RegInv s2 := by
  have hrs : ∀ i, (rendererOf s2 i).isSome = (rendererOf s i).isSome := by
    intro i
    have h := hrt i
    cases h2 : rendererOf s2 i <;> cases h1 : rendererOf s i <;>
      simp [h2, h1] at h ⊢
  have hst : ∀ i, slotTok s2 i = slotTok s i := by
    intro i
    cases hA : s.adapters i with
    | none => simp [slotTok, ha, hA]
    | some ad =>
      cases hf : ad.factory with
      | some t => simp [slotTok, ha, hA, hf]
      | none => simp [slotTok, ha, hA, hf, hrt i]
  refine ⟨?_, ?_, ?_, ?_, ?_, ?_, ?_⟩
  · intro id
    rw [hinsSome id, ha, inv.link id]
  · intro id ad t hA hf
    rw [ha] at hA
    obtain ⟨h1, h2, h3⟩ := inv.pend id ad t hA hf
    refine ⟨by rw [hv]; exact h1, ?_, by rw [hn]; exact h3⟩
    have hb : (rendererOf s2 id).isSome = false := by
      rw [hrs id, h2]
      rfl
    cases h4 : rendererOf s2 id with
    | none => rfl
    | some r => rw [h4] at hb; exact absurd hb (by simp)
  · intro id ad hA hf
    rw [ha] at hA
    obtain ⟨h1, r1, hr1, hlt⟩ := inv.used id ad hA hf
    refine ⟨by rw [hv]; exact h1, ?_⟩
    have hb : (rendererOf s2 id).isSome = true := by
      rw [hrs id, hr1]
      rfl
    cases h4 : rendererOf s2 id with
    | none => rw [h4] at hb; exact absurd hb (by simp)
    | some r2 =>
      have h5 := hrt id
      rw [h4, hr1] at h5
      simp at h5
      exact ⟨r2, rfl, by rw [hn, h5]; exact hlt⟩
  · intro id hA
    rw [ha] at hA
    rw [hv]
    exact inv.fresh0 id hA
  · intro a b ta tb hab h1 h2
    rw [hst a] at h1
    rw [hst b] at h2
    exact inv.inj a b ta tb hab h1 h2
  · intro id r2 h2
    obtain ⟨r1, h1, he⟩ := hsh id r2 h2
    rw [he]
    exact inv.noShut id r1 h1
  · exact hp

theorem regInv_release {s : MgrState} (inv : RegInv s) (t : Nat) :
    RegInv (BevyInstanceManager.release s t) := by
  cases h : s.instances t with
  | none => simpa [BevyInstanceManager.release, h] using inv
  | some inst =>
    have hstep : BevyInstanceManager.release s t =
        { s with
          instances := upd s.instances t (some { inst with ref_count := (inst.ref_count + (USIZE - 1)) % USIZE }) } := by
      simp [BevyInstanceManager.release, h]
    rw [hstep]
    refine inv.transfer ?_ rfl ?_ ?_ rfl rfl ?_
    · intro i
      by_cases hit : i = t <;> simp [upd, hit, h]
    · intro i
      by_cases hit : i = t <;> simp [rendererOf, upd, hit, h]
    · intro i r2 h2
      refine ⟨r2, ?_, rfl⟩
      by_cases hit : i = t
      · subst hit
        simp [rendererOf, upd] at h2
        simpa [rendererOf, h] using h2
      · simp [rendererOf, upd, hit] at h2
        simpa [rendererOf] using h2
    · intro i inst2 h2
      by_cases hit : i = t
      · subst hit
        simp [upd] at h2
        have hpid := inv.pid _ inst h
        rw [← h2]
        simpa using hpid
      · simp [upd, hit] at h2
        exact inv.pid i inst2 h2

theorem regInv_send {s : MgrState} (inv : RegInv s) (t m : Nat) :
    RegInv (BevyInstanceManager.send_message s t m) := by
  cases h : s.instances t with
  | none => simpa [BevyInstanceManager.send_message, h] using inv
  | some inst =>
    cases hr : inst.renderer with
    | none => simpa [BevyInstanceManager.send_message, h, hr] using inv
    | some r =>
      have hstep : BevyInstanceManager.send_message s t m =
          { s with
            instances := upd s.instances t (some { inst with renderer := some (r.handle_message m) }) } := by
        simp [BevyInstanceManager.send_message, h, hr]
      rw [hstep]
      refine inv.transfer ?_ rfl ?_ ?_ rfl rfl ?_
      · intro i
        by_cases hit : i = t <;> simp [upd, hit, h]
      · intro i
        by_cases hit : i = t <;>
          simp [rendererOf, upd, hit, h, hr, Renderer.handle_message]
      · intro i r2 h2
        by_cases hit : i = t
        · subst hit
          simp [rendererOf, upd] at h2
          refine ⟨r, by simp [rendererOf, h, hr], ?_⟩
          rw [← h2]
          rfl
        · refine ⟨r2, ?_, rfl⟩
          simp [rendererOf, upd, hit] at h2
          simpa [rendererOf] using h2
      · intro i inst2 h2
        by_cases hit : i = t
        · subst hit
          simp [upd] at h2
          have hpid := inv.pid _ inst h
          rw [← h2]
          simpa using hpid
        · simp [upd, hit] at h2
          exact inv.pid i inst2 h2

theorem regInv_suspend {s : MgrState} (inv : RegInv s) (t : Nat) :
    RegInv (ManagedBevyPaintSource.suspend s t) := by
  cases h : s.instances t with
  | none => simpa [ManagedBevyPaintSource.suspend, h] using inv
  | some inst =>
    cases hr : inst.renderer with
    | none => simpa [ManagedBevyPaintSource.suspend, h, hr] using inv
    | some r =>
      have hstep : ManagedBevyPaintSource.suspend s t =
          { s with
            instances := upd s.instances t (some { inst with renderer := some (Renderer.suspend r) }) } := by
        simp [ManagedBevyPaintSource.suspend, h, hr]
      rw [hstep]
      refine inv.transfer ?_ rfl ?_ ?_ rfl rfl ?_
      · intro i
        by_cases hit : i = t <;> simp [upd, hit, h]
      · intro i
        by_cases hit : i = t <;>
          simp [rendererOf, upd, hit, h, hr, Renderer.suspend]
      · intro i r2 h2
        by_cases hit : i = t
        · subst hit
          simp [rendererOf, upd] at h2
          refine ⟨r, by simp [rendererOf, h, hr], ?_⟩
          rw [← h2]
          rfl
        · refine ⟨r2, ?_, rfl⟩
          simp [rendererOf, upd, hit] at h2
          simpa [rendererOf] using h2
      · intro i inst2 h2
        by_cases hit : i = t
        · subst hit
          simp [upd] at h2
          have hpid := inv.pid _ inst h
          rw [← h2]
          simpa using hpid
        · simp [upd, hit] at h2
          exact inv.pid i inst2 h2

theorem regInv_renderWith {s : MgrState} (inv : RegInv s)
    (rr : Renderer → Renderer × Option Nat)
    (hrrTok : ∀ r, ((rr r).1).tok = r.tok)
    (hrrShut : ∀ r, ((rr r).1).shutdowns = r.shutdowns)
    (t : Nat) :
    RegInv (renderWith rr s t).1 := by
  cases h : s.instances t with
  | none => simpa [renderWith, h] using inv
  | some inst =>
    cases hr : inst.renderer with
    | none => simpa [renderWith, h, hr] using inv
    | some r =>
      have hstep : (renderWith rr s t).1 =
          { s with
            instances := upd s.instances t (some { inst with renderer := some (rr r).1 }) } := by
        simp [renderWith, h, hr]
      rw [hstep]
      refine inv.transfer ?_ rfl ?_ ?_ rfl rfl ?_
      · intro i
        by_cases hit : i = t <;> simp [upd, hit, h]
      · intro i
        by_cases hit : i = t <;>
          simp [rendererOf, upd, hit, h, hr, hrrTok]
      · intro i r2 h2
        by_cases hit : i = t
        · subst hit
          simp [rendererOf, upd] at h2
          refine ⟨r, by simp [rendererOf, h, hr], ?_⟩
          rw [← h2]
          exact hrrShut r
        · refine ⟨r2, ?_, rfl⟩
          simp [rendererOf, upd, hit] at h2
          simpa [rendererOf] using h2
      · intro i inst2 h2
        by_cases hit : i = t
        · subst hit
          simp [upd] at h2
          have hpid := inv.pid _ inst h
          rw [← h2]
          simpa using hpid
        · simp [upd, hit] at h2
          exact inv.pid i inst2 h2

theorem regInv_create {s : MgrState} (inv : RegInv s) (t : Nat) :
    RegInv (BevyInstanceManager.get_or_create s t).1 := by
  cases h : s.instances t with
  | some inst =>
    have hstep : (BevyInstanceManager.get_or_create s t).1 =
        { s with
          instances := upd s.instances t (some { inst with ref_count := (inst.ref_count + 1) % USIZE }) } := by
      simp [BevyInstanceManager.get_or_create, h]
    rw [hstep]
    refine inv.transfer ?_ rfl ?_ ?_ rfl rfl ?_
    · intro i
      by_cases hit : i = t <;> simp [upd, hit, h]
    · intro i
      by_cases hit : i = t <;> simp [rendererOf, upd, hit, h]
    · intro i r2 h2
      refine ⟨r2, ?_, rfl⟩
      by_cases hit : i = t
      · subst hit
        simp [rendererOf, upd] at h2
        simpa [rendererOf, h] using h2
      · simp [rendererOf, upd, hit] at h2
        simpa [rendererOf] using h2
    · intro i inst2 h2
      by_cases hit : i = t
      · subst hit
        simp [upd] at h2
        have hpid := inv.pid _ inst h
        rw [← h2]
        simpa using hpid
      · simp [upd, hit] at h2
        exact inv.pid i inst2 h2
  | none =>
    have hAnone : s.adapters t = none := by
      have hl := inv.link t
      rw [h] at hl
      cases hA : s.adapters t with
      | none => rfl
      | some ad => rw [hA] at hl; exact absurd hl (by simp)
    have hV0 : s.invokedFor t = 0 := inv.fresh0 t hAnone
    have hstep : (BevyInstanceManager.get_or_create s t).1 =
        { instances := upd s.instances t (some { renderer := none, paint_source_id := some s.nextPaintId, ref_count := 1 }),
          adapters := upd s.adapters t (some { factory := some s.nextTok }),
          nextPaintId := s.nextPaintId + 1,
          nextTok := s.nextTok + 1,
          invokedFor := s.invokedFor } := by
      simp [BevyInstanceManager.get_or_create, h]
    rw [hstep]
    have hSt : ∀ i, i ≠ t →
        slotTok
          { instances := upd s.instances t (some { renderer := none, paint_source_id := some s.nextPaintId, ref_count := 1 }),
            adapters := upd s.adapters t (some { factory := some s.nextTok }),
            nextPaintId := s.nextPaintId + 1,
            nextTok := s.nextTok + 1,
            invokedFor := s.invokedFor } i = slotTok s i := by
      intro i hit
      cases hA : s.adapters i with
      | none => simp [slotTok, upd, hit, hA]
      | some ad =>
        cases hf : ad.factory with
        | some tk => simp [slotTok, upd, hit, hA, hf]
        | none => simp [slotTok, upd, hit, hA, hf, rendererOf]
    refine ⟨?_, ?_, ?_, ?_, ?_, ?_, ?_⟩
    · intro id
      by_cases hit : id = t
      · simp [upd, hit, h, hAnone]
      · simpa [upd, hit] using inv.link id
    · intro id ad tk hA hf
      by_cases hit : id = t
      · subst hit
        simp [upd] at hA
        rw [← hA] at hf
        simp at hf
        refine ⟨hV0, ?_, ?_⟩
        · simp [rendererOf, upd]
        · simp
          omega
      · simp [upd, hit] at hA
        obtain ⟨h1, h2, h3⟩ := inv.pend id ad tk hA hf
        refine ⟨h1, ?_, by simpa using Nat.lt_succ_of_lt h3⟩
        simpa [rendererOf, upd, hit] using h2
    · intro id ad hA hf
      by_cases hit : id = t
      · subst hit
        simp [upd] at hA
        rw [← hA] at hf
        simp at hf
      · simp [upd, hit] at hA
        obtain ⟨h1, r, hr, hlt⟩ := inv.used id ad hA hf
        refine ⟨h1, r, ?_, by simpa using Nat.lt_succ_of_lt hlt⟩
        simpa [rendererOf, upd, hit] using hr
    · intro id hA
      by_cases hit : id = t
      · subst hit
        simp [upd] at hA
      · simp [upd, hit] at hA
        exact inv.fresh0 id hA
    · intro a b ta tb hab h1 h2
      by_cases hat : a = t
      · subst hat
        have hbt : b ≠ a := fun hh => hab hh.symm
        rw [hSt b hbt] at h2
        have hlt := inv.tokLt b tb h2
        simp [slotTok, upd] at h1
        omega
      · by_cases hbt : b = t
        · subst hbt
          rw [hSt a hat] at h1
          have hlt := inv.tokLt a ta h1
          simp [slotTok, upd] at h2
          omega
        · rw [hSt a hat] at h1
          rw [hSt b hbt] at h2
          exact inv.inj a b ta tb hab h1 h2
    · intro id r h2
      by_cases hit : id = t
      · subst hit
        simp [rendererOf, upd] at h2
      · simp [rendererOf, upd, hit] at h2
        exact inv.noShut id r (by simpa [rendererOf] using h2)
    · intro id inst2 h2
      by_cases hit : id = t
      · subst hit
        simp [upd] at h2
        rw [← h2]
        rfl
      · simp [upd, hit] at h2
        exact inv.pid id inst2 h2

theorem regInv_resume {s : MgrState} (inv : RegInv s) (t : Nat) :
    RegInv (ManagedBevyPaintSource.resume s t) := by
  cases hA : s.adapters t with
  | none => simpa [ManagedBevyPaintSource.resume, hA] using inv
  | some ad =>
    cases h : s.instances t with
    | none => simpa [ManagedBevyPaintSource.resume, hA, h] using inv
    | some inst =>
      cases hr : inst.renderer with
      | some r =>
        have hstep : ManagedBevyPaintSource.resume s t =
            { s with
              instances := upd s.instances t (some { inst with renderer := some (Renderer.resume r) }),
              adapters := upd s.adapters t (some { factory := ad.factory }) } := by
          simp [ManagedBevyPaintSource.resume, hA, h, hr]
        have hAeq : upd s.adapters t (some { factory := ad.factory }) = s.adapters := by
          funext i
          by_cases hit : i = t
          · subst hit
            rw [upd_self, hA]
          · rw [upd_other _ _ _ _ hit]
        rw [hstep]
        refine inv.transfer ?_ hAeq ?_ ?_ rfl rfl ?_
        · intro i
          by_cases hit : i = t <;> simp [upd, hit, h]
        · intro i
          by_cases hit : i = t <;>
            simp [rendererOf, upd, hit, h, hr, Renderer.resume]
        · intro i r2 h2
          by_cases hit : i = t
          · subst hit
            simp [rendererOf, upd] at h2
            refine ⟨r, by simp [rendererOf, h, hr], ?_⟩
            rw [← h2]
            rfl
          · refine ⟨r2, ?_, rfl⟩
            simp [rendererOf, upd, hit] at h2
            simpa [rendererOf] using h2
        · intro i inst2 h2
          by_cases hit : i = t
          · subst hit
            simp [upd] at h2
            have hpid := inv.pid _ inst h
            rw [← h2]
            simpa using hpid
          · simp [upd, hit] at h2
            exact inv.pid i inst2 h2
      | none =>
        cases hf : ad.factory with
        | none => simpa [ManagedBevyPaintSource.resume, hA, h, hr, hf] using inv
        | some tok =>
          obtain ⟨hV0, hRnone, hTokLt⟩ := inv.pend t ad tok hA hf
          have hstep : ManagedBevyPaintSource.resume s t =
              { s with
                instances := upd s.instances t (some { inst with renderer := some (Renderer.resume (mkRenderer tok)) }),
                adapters := upd s.adapters t (some { factory := none }),
                invokedFor := upd s.invokedFor t (s.invokedFor t + 1) } := by
            simp [ManagedBevyPaintSource.resume, hA, h, hr, hf]
          have key : ∀ i u, slotTok (ManagedBevyPaintSource.resume s t) i = some u →
              slotTok s i = some u := by
            intro i u hi
            rw [hstep] at hi
            by_cases hit : i = t
            · subst hit
              simp [slotTok, upd, rendererOf, Renderer.resume, mkRenderer] at hi
              simp [slotTok, hA, hf]
              omega
            · cases hA2 : s.adapters i with
              | none => simp [slotTok, upd, hit, hA2] at hi
              | some ad2 =>
                cases hf2 : ad2.factory with
                | some tk => simpa [slotTok, upd, hit, hA2, hf2] using hi
                | none => simpa [slotTok, upd, hit, hA2, hf2, rendererOf] using hi
          rw [hstep]
          refine ⟨?_, ?_, ?_, ?_, ?_, ?_, ?_⟩
          · intro id
            by_cases hit : id = t
            · simp [upd, hit, h, hA]
            · simpa [upd, hit] using inv.link id
          · intro id ad2 tk hA2 hf2
            by_cases hit : id = t
            · subst hit
              simp [upd] at hA2
              rw [← hA2] at hf2
              simp at hf2
            · simp [upd, hit] at hA2
              obtain ⟨p1, p2, p3⟩ := inv.pend id ad2 tk hA2 hf2
              refine ⟨?_, ?_, by simpa using p3⟩
              · simpa [upd, hit] using p1
              · simp [rendererOf, upd, hit]
                simpa [rendererOf] using p2
          · intro id ad2 hA2 hf2
            by_cases hit : id = t
            · subst hit
              refine ⟨by simp [upd, hV0], Renderer.resume (mkRenderer tok), ?_, ?_⟩
              · simp [rendererOf, upd]
              · simpa [Renderer.resume, mkRenderer] using hTokLt
            · simp [upd, hit] at hA2
              obtain ⟨u1, rr, ur, ult⟩ := inv.used id ad2 hA2 hf2
              refine ⟨by simpa [upd, hit] using u1, rr, ?_, by simpa using ult⟩
              simp [rendererOf, upd, hit]
              simpa [rendererOf] using ur
          · intro id hA2
            by_cases hit : id = t
            · subst hit
              simp [upd] at hA2
            · simp [upd, hit] at hA2 ⊢
              exact inv.fresh0 id hA2
          · intro a b ta tb hab h1 h2
            rw [← hstep] at h1 h2
            exact inv.inj a b ta tb hab (key a ta h1) (key b tb h2)
          · intro id r2 h2
            by_cases hit : id = t
            · subst hit
              simp [rendererOf, upd] at h2
              rw [← h2]
              rfl
            · simp [rendererOf, upd, hit] at h2
              exact inv.noShut id r2 (by simpa [rendererOf] using h2)
          · intro id inst2 h2
            by_cases hit : id = t
            · subst hit
              simp [upd] at h2
              have hpid := inv.pid _ inst h
              rw [← h2]
              simpa using hpid
            · simp [upd, hit] at h2
              exact inv.pid id inst2 h2

/-- Every registry operation preserves the invariant. -/
theorem regInv_step {s : MgrState} (inv : RegInv s) (op : Op) : RegInv (step s op) := by
  cases op with
  | create id => exact regInv_create inv id
  | release id => exact regInv_release inv id
  | suspend id => exact regInv_suspend inv id
  | render id =>
      exact regInv_renderWith inv Renderer.render (fun r => rfl) (fun r => rfl) id
  | resume id => exact regInv_resume inv id
  | send id m => exact regInv_send inv id m

/-- Every state reachable from a state satisfying the invariant satisfies
the invariant. -/
theorem regInv_run {s : MgrState} (inv : RegInv s) (ops : List Op) : RegInv (run s ops) := by
  induction ops generalizing s with
  | nil => exact inv
  | cons op rest ih => exact ih (regInv_step inv op)

/-- Every state reachable from the initial registry state satisfies the
invariant. -/
theorem regInv_reachable (ops : List Op) : RegInv (run init ops) :=
  regInv_run regInv_init ops

/-!
Trace-level lemmas: how single steps affect slot presence, renderer
presence and reference counts, and counting lemmas on operation lists.
-/

/-- The identity an operation targets. -/
def opTarget : Op → Nat
  | Op.create id => id
  | Op.release id => id
  | Op.suspend id => id
  | Op.render id => id
  | Op.resume id => id
  | Op.send id _ => id

/-- An operation leaves every other identity's slot untouched. -/
theorem step_instances_other (s : MgrState) (op : Op) (id : Nat)
    (h : opTarget op ≠ id) : (step s op).instances id = s.instances id := by
  have hid : id ≠ opTarget op := fun hh => h hh.symm
  cases op with
  | create j =>
      cases hj : s.instances j with
      | some inst => simp [step, BevyInstanceManager.get_or_create, hj, upd, show ¬ id = j from hid]
      | none => simp [step, BevyInstanceManager.get_or_create, hj, upd, show ¬ id = j from hid]
  | release j =>
      cases hj : s.instances j with
      | some inst => simp [step, BevyInstanceManager.release, hj, upd, show ¬ id = j from hid]
      | none => simp [step, BevyInstanceManager.release, hj]
  | suspend j =>
      cases hj : s.instances j with
      | none => simp [step, ManagedBevyPaintSource.suspend, hj]
      | some inst =>
        cases hr : inst.renderer with
        | some r => simp [step, ManagedBevyPaintSource.suspend, hj, hr, upd, show ¬ id = j from hid]
        | none => simp [step, ManagedBevyPaintSource.suspend, hj, hr]
  | render j =>
      cases hj : s.instances j with
      | none => simp [step, ManagedBevyPaintSource.render, renderWith, hj]
      | some inst =>
        cases hr : inst.renderer with
        | some r =>
            simp [step, ManagedBevyPaintSource.render, renderWith, hj, hr, upd, show ¬ id = j from hid]
        | none => simp [step, ManagedBevyPaintSource.render, renderWith, hj, hr]
  | resume j =>
      cases hA : s.adapters j with
      | none => simp [step, ManagedBevyPaintSource.resume, hA]
      | some ad =>
        cases hj : s.instances j with
        | none => simp [step, ManagedBevyPaintSource.resume, hA, hj]
        | some inst =>
          cases hr : inst.renderer with
          | some r =>
              simp [step, ManagedBevyPaintSource.resume, hA, hj, hr, upd, show ¬ id = j from hid]
          | none =>
            cases hf : ad.factory with
            | some tok =>
                simp [step, ManagedBevyPaintSource.resume, hA, hj, hr, hf, upd, show ¬ id = j from hid]
            | none => simp [step, ManagedBevyPaintSource.resume, hA, hj, hr, hf]
  | send j m =>
      cases hj : s.instances j with
      | none => simp [step, BevyInstanceManager.send_message, hj]
      | some inst =>
        cases hr : inst.renderer with
        | some r => simp [step, BevyInstanceManager.send_message, hj, hr, upd, show ¬ id = j from hid]
        | none => simp [step, BevyInstanceManager.send_message, hj, hr]

/-- Every operation other than `create` preserves slot presence at every
identity. -/
theorem step_presence (s : MgrState) (op : Op) (id : Nat)
    (hnc : ∀ j, op ≠ Op.create j) :
    ((step s op).instances id).isSome = (s.instances id).isSome := by
  by_cases ht : opTarget op = id
  case neg => rw [step_instances_other s op id ht]
  case pos =>
    cases op with
    | create j => exact absurd rfl (hnc j)
    | release j =>
        cases hj : s.instances j with
        | none => simp [step, BevyInstanceManager.release, hj]
        | some inst =>
            have hji : id = j := by simpa [opTarget] using ht.symm
            subst hji
            simp [step, BevyInstanceManager.release, hj, upd]
    | suspend j =>
        cases hj : s.instances j with
        | none => simp [step, ManagedBevyPaintSource.suspend, hj]
        | some inst =>
          have hji : id = j := by simpa [opTarget] using ht.symm
          subst hji
          cases hr : inst.renderer with
          | none => simp [step, ManagedBevyPaintSource.suspend, hj, hr]
          | some r => simp [step, ManagedBevyPaintSource.suspend, hj, hr, upd]
    | render j =>
        cases hj : s.instances j with
        | none => simp [step, ManagedBevyPaintSource.render, renderWith, hj]
        | some inst =>
          have hji : id = j := by simpa [opTarget] using ht.symm
          subst hji
          cases hr : inst.renderer with
          | none => simp [step, ManagedBevyPaintSource.render, renderWith, hj, hr]
          | some r => simp [step, ManagedBevyPaintSource.render, renderWith, hj, hr, upd]
    | resume j =>
        cases hA : s.adapters j with
        | none => simp [step, ManagedBevyPaintSource.resume, hA]
        | some ad =>
          cases hj : s.instances j with
          | none => simp [step, ManagedBevyPaintSource.resume, hA, hj]
          | some inst =>
            have hji : id = j := by simpa [opTarget] using ht.symm
            subst hji
            cases hr : inst.renderer with
            | some r => simp [step, ManagedBevyPaintSource.resume, hA, hj, hr, upd]
            | none =>
              cases hf : ad.factory with
              | some tok => simp [step, ManagedBevyPaintSource.resume, hA, hj, hr, hf, upd]
              | none => simp [step, ManagedBevyPaintSource.resume, hA, hj, hr, hf]
    | send j m =>
        cases hj : s.instances j with
        | none => simp [step, BevyInstanceManager.send_message, hj]
        | some inst =>
          have hji : id = j := by simpa [opTarget] using ht.symm
          subst hji
          cases hr : inst.renderer with
          | none => simp [step, BevyInstanceManager.send_message, hj, hr]
          | some r => simp [step, BevyInstanceManager.send_message, hj, hr, upd]

/-- A slot present after a step was present before, unless the step was a
`create` for that very identity. -/
theorem step_instances_isSome {s : MgrState} {op : Op} {id : Nat}
    (h : ((step s op).instances id).isSome) :
    (s.instances id).isSome ∨ op = Op.create id := by
  cases op with
  | create j =>
      by_cases hji : j = id
      · right
        rw [hji]
      · left
        rw [step_instances_other s (Op.create j) id hji] at h
        exact h
  | release j => left; rwa [step_presence s (Op.release j) id (by intro j2 hh; cases hh)] at h
  | suspend j => left; rwa [step_presence s (Op.suspend j) id (by intro j2 hh; cases hh)] at h
  | render j => left; rwa [step_presence s (Op.render j) id (by intro j2 hh; cases hh)] at h
  | resume j => left; rwa [step_presence s (Op.resume j) id (by intro j2 hh; cases hh)] at h
  | send j m => left; rwa [step_presence s (Op.send j m) id (by intro j2 hh; cases hh)] at h

/-- A renderer present after a step was present before, unless the step was
a `resume` for that identity while its slot existed. -/
theorem step_renderer_isSome {s : MgrState} {op : Op} {id : Nat}
    (h : (rendererOf (step s op) id).isSome) :
    (rendererOf s id).isSome ∨ (op = Op.resume id ∧ (s.instances id).isSome) := by
  by_cases ht : opTarget op = id
  case neg =>
    left
    unfold rendererOf at h ⊢
    rw [step_instances_other s op id ht] at h
    exact h
  case pos =>
    cases op with
    | create j =>
        have hji : id = j := ht.symm
        subst hji
        left
        cases hj : s.instances id with
        | some inst => simpa [step, BevyInstanceManager.get_or_create, hj, upd, rendererOf] using h
        | none => simpa [step, BevyInstanceManager.get_or_create, hj, upd, rendererOf] using h
    | release j =>
        have hji : id = j := ht.symm
        subst hji
        left
        cases hj : s.instances id with
        | some inst => simpa [step, BevyInstanceManager.release, hj, upd, rendererOf] using h
        | none => simpa [step, BevyInstanceManager.release, hj, rendererOf] using h
    | suspend j =>
        have hji : id = j := ht.symm
        subst hji
        left
        cases hj : s.instances id with
        | none => simpa [step, ManagedBevyPaintSource.suspend, hj, rendererOf] using h
        | some inst =>
          cases hr : inst.renderer with
          | none => simpa [step, ManagedBevyPaintSource.suspend, hj, hr, rendererOf] using h
          | some r => simp [rendererOf, hj, hr]
    | render j =>
        have hji : id = j := ht.symm
        subst hji
        left
        cases hj : s.instances id with
        | none => simpa [step, ManagedBevyPaintSource.render, renderWith, hj, rendererOf] using h
        | some inst =>
          cases hr : inst.renderer with
          | none =>
              simpa [step, ManagedBevyPaintSource.render, renderWith, hj, hr, rendererOf] using h
          | some r => simp [rendererOf, hj, hr]
    | send j m =>
        have hji : id = j := ht.symm
        subst hji
        left
        cases hj : s.instances id with
        | none => simpa [step, BevyInstanceManager.send_message, hj, rendererOf] using h
        | some inst =>
          cases hr : inst.renderer with
          | none => simpa [step, BevyInstanceManager.send_message, hj, hr, rendererOf] using h
          | some r => simp [rendererOf, hj, hr]
    | resume j =>
        have hji : id = j := ht.symm
        subst hji
        cases hA : s.adapters id with
        | none => left; simpa [step, ManagedBevyPaintSource.resume, hA] using h
        | some ad =>
          cases hj : s.instances id with
          | none => left; simpa [step, ManagedBevyPaintSource.resume, hA, hj] using h
          | some inst =>
            right
            exact ⟨rfl, by simp [hj]⟩

theorem nCreates_append (id : Nat) (l r : List Op) :
    nCreates id (l ++ r) = nCreates id l + nCreates id r := by
  induction l with
  | nil => simp [nCreates]
  | cons o rest ih => cases o <;> simp [nCreates, ih, Nat.add_assoc]

theorem nReleases_append (id : Nat) (l r : List Op) :
    nReleases id (l ++ r) = nReleases id l + nReleases id r := by
  induction l with
  | nil => simp [nReleases]
  | cons o rest ih => cases o <;> simp [nReleases, ih, Nat.add_assoc]

theorem hasCreate_append (id : Nat) (l r : List Op) :
    hasCreate id (l ++ r) = (hasCreate id l || hasCreate id r) := by
  induction l with
  | nil => simp [hasCreate]
  | cons o rest ih =>
      cases o with
      | create i =>
          by_cases hi : i = id <;> simp [hasCreate, hi, ih]
      | release i => simp [hasCreate, ih]
      | suspend i => simp [hasCreate, ih]
      | render i => simp [hasCreate, ih]
      | resume i => simp [hasCreate, ih]
      | send i m => simp [hasCreate, ih]

theorem hasResume_append (id : Nat) (l r : List Op) :
    hasResume id (l ++ r) = (hasResume id l || hasResume id r) := by
  induction l with
  | nil => simp [hasResume]
  | cons o rest ih =>
      cases o with
      | resume i =>
          by_cases hi : i = id <;> simp [hasResume, hi, ih]
      | release i => simp [hasResume, ih]
      | suspend i => simp [hasResume, ih]
      | render i => simp [hasResume, ih]
      | create i => simp [hasResume, ih]
      | send i m => simp [hasResume, ih]

theorem createThenResume_append_left (id : Nat) (l r : List Op)
    (h : createThenResume id l = true) : createThenResume id (l ++ r) = true := by
  induction l with
  | nil => simp [createThenResume] at h
  | cons o rest ih =>
      cases o with
      | create i =>
          by_cases hi : i = id
          · simp [createThenResume, hi, hasResume_append] at h ⊢
            rcases h with h1 | h2
            · exact Or.inl (Or.inl h1)
            · exact Or.inr (ih h2)
          · simp [createThenResume, hi] at h ⊢
            exact ih h
      | release i => simp [createThenResume] at h ⊢; exact ih h
      | suspend i => simp [createThenResume] at h ⊢; exact ih h
      | render i => simp [createThenResume] at h ⊢; exact ih h
      | resume i => simp [createThenResume] at h ⊢; exact ih h
      | send i m => simp [createThenResume] at h ⊢; exact ih h

theorem createThenResume_snoc_resume (id : Nat) (l : List Op)
    (h : hasCreate id l = true) : createThenResume id (l ++ [Op.resume id]) = true := by
  induction l with
  | nil => simp [hasCreate] at h
  | cons o rest ih =>
      cases o with
      | create i =>
          by_cases hi : i = id
          · simp [createThenResume, hi, hasResume_append, hasResume]
          · simp [hasCreate, hi] at h
            simp [createThenResume, hi]
            exact ih h
      | release i =>
          simp [hasCreate] at h
          simp [createThenResume]
          exact ih h
      | suspend i =>
          simp [hasCreate] at h
          simp [createThenResume]
          exact ih h
      | render i =>
          simp [hasCreate] at h
          simp [createThenResume]
          exact ih h
      | resume i =>
          simp [hasCreate] at h
          simp [createThenResume]
          exact ih h
      | send i m =>
          simp [hasCreate] at h
          simp [createThenResume]
          exact ih h

/-- A slot can only be present if a `create` for its identity occurred. -/
theorem slot_origin (ops : List Op) (id : Nat)
    (h : ((run init ops).instances id).isSome) : hasCreate id ops = true := by
  induction ops using List.reverseRecOn with
  | nil => simp [run, init] at h
  | append_singleton l op ih =>
      rw [run_append] at h
      rcases step_instances_isSome h with h1 | h2
      · have h3 := ih h1
        rw [hasCreate_append]
        simp [h3]
      · subst h2
        rw [hasCreate_append]
        simp [hasCreate]

/-- A renderer can only be constructed by a `resume` that strictly follows
a `create` of the same identity. -/
theorem renderer_origin (ops : List Op) (id : Nat)
    (h : (rendererOf (run init ops) id).isSome) : createThenResume id ops = true := by
  induction ops using List.reverseRecOn with
  | nil => simp [run, init, rendererOf] at h
  | append_singleton l op ih =>
      rw [run_append] at h
      rcases step_renderer_isSome h with h1 | ⟨hop, hpres⟩
      · exact createThenResume_append_left id l [op] (ih h1)
      · subst hop
        exact createThenResume_snoc_resume id l (slot_origin l id hpres)

/-- In every reachable state, the deferred factory of each identity has been
invoked at most once. -/
theorem invoked_le_one (ops : List Op) (id : Nat) :
    (run init ops).invokedFor id ≤ 1 := by
  have inv := regInv_reachable ops
  cases hA : (run init ops).adapters id with
  | none => rw [inv.fresh0 id hA]; omega
  | some ad =>
      cases hf : ad.factory with
      | some t =>
          obtain ⟨h1, _, _⟩ := inv.pend id ad t hA hf
          omega
      | none =>
          obtain ⟨h1, _⟩ := inv.used id ad hA hf
          omega

theorem wrap_inc (c : Nat) (h : c + 1 < USIZE) : (c + 1) % USIZE = c + 1 :=
  Nat.mod_eq_of_lt h

theorem wrap_dec (c : Nat) (h1 : 1 ≤ c) (h2 : c < USIZE) :
    (c + (USIZE - 1)) % USIZE = c - 1 := by
  have hU : 0 < USIZE := by norm_num [USIZE]
  have he : c + (USIZE - 1) = (c - 1) + USIZE := by omega
  rw [he, Nat.add_mod_right]
  exact Nat.mod_eq_of_lt (by omega)

/-- Operations other than `create`/`release` never change a reference
count. -/
theorem step_refCount_passive (s : MgrState) (op : Op) (id : Nat)
    (h : ∀ j, op ≠ Op.create j ∧ op ≠ Op.release j) :
    refCountVal (step s op) id = refCountVal s id := by
  by_cases ht : opTarget op = id
  case neg =>
    unfold refCountVal
    rw [step_instances_other s op id ht]
  case pos =>
    cases op with
    | create j => exact absurd rfl (h j).1
    | release j => exact absurd rfl (h j).2
    | suspend j =>
        have hji : id = j := ht.symm
        subst hji
        cases hj : s.instances id with
        | none => simp [refCountVal, step, ManagedBevyPaintSource.suspend, hj]
        | some inst =>
          cases hr : inst.renderer with
          | none => simp [refCountVal, step, ManagedBevyPaintSource.suspend, hj, hr]
          | some r => simp [refCountVal, step, ManagedBevyPaintSource.suspend, hj, hr, upd]
    | render j =>
        have hji : id = j := ht.symm
        subst hji
        cases hj : s.instances id with
        | none => simp [refCountVal, step, ManagedBevyPaintSource.render, renderWith, hj]
        | some inst =>
          cases hr : inst.renderer with
          | none => simp [refCountVal, step, ManagedBevyPaintSource.render, renderWith, hj, hr]
          | some r =>
              simp [refCountVal, step, ManagedBevyPaintSource.render, renderWith, hj, hr, upd]
    | resume j =>
        have hji : id = j := ht.symm
        subst hji
        cases hA : s.adapters id with
        | none => simp [refCountVal, step, ManagedBevyPaintSource.resume, hA]
        | some ad =>
          cases hj : s.instances id with
          | none => simp [refCountVal, step, ManagedBevyPaintSource.resume, hA, hj]
          | some inst =>
            cases hr : inst.renderer with
            | some r => simp [refCountVal, step, ManagedBevyPaintSource.resume, hA, hj, hr, upd]
            | none =>
              cases hf : ad.factory with
              | some tok =>
                  simp [refCountVal, step, ManagedBevyPaintSource.resume, hA, hj, hr, hf, upd]
              | none => simp [refCountVal, step, ManagedBevyPaintSource.resume, hA, hj, hr, hf]
    | send j m =>
        have hji : id = j := ht.symm
        subst hji
        cases hj : s.instances id with
        | none => simp [refCountVal, step, BevyInstanceManager.send_message, hj]
        | some inst =>
          cases hr : inst.renderer with
          | none => simp [refCountVal, step, BevyInstanceManager.send_message, hj, hr]
          | some r => simp [refCountVal, step, BevyInstanceManager.send_message, hj, hr, upd]

/-- Effect of `get_or_create` on its own identity's count and presence. -/
theorem step_refCount_create (s : MgrState) (id : Nat) :
    refCountVal (step s (Op.create id)) id = (refCountVal s id + 1) % USIZE ∧
    ((step s (Op.create id)).instances id).isSome := by
  cases hj : s.instances id with
  | some inst =>
      constructor <;> simp [refCountVal, step, BevyInstanceManager.get_or_create, hj, upd]
  | none =>
      constructor
      · simp [refCountVal, step, BevyInstanceManager.get_or_create, hj, upd]
        rw [Nat.mod_eq_of_lt (by norm_num [USIZE])]
      · simp [step, BevyInstanceManager.get_or_create, hj, upd]

/-- Effect of `release` on a present slot's count. -/
theorem step_refCount_release (s : MgrState) (id : Nat)
    (hp : (s.instances id).isSome) :
    refCountVal (step s (Op.release id)) id = (refCountVal s id + (USIZE - 1)) % USIZE := by
  cases hj : s.instances id with
  | none => rw [hj] at hp; exact absurd hp (by simp)
  | some inst => simp [refCountVal, step, BevyInstanceManager.release, hj, upd]

/-- Under prefix-balance (no prefix has more releases than creates of the
identity) and below the `usize` bound, the reference count tracks the
difference between creates and releases exactly, and a slot is present
exactly when at least one create occurred. -/
theorem refcount_tracks (id : Nat) (ops : List Op) :
    (∀ k, k ≤ ops.length → nReleases id (ops.take k) ≤ nCreates id (ops.take k)) →
    nCreates id ops < USIZE →
    refCountVal (run init ops) id = nCreates id ops - nReleases id ops ∧
    (((run init ops).instances id).isSome ↔ 1 ≤ nCreates id ops) := by
  induction ops using List.reverseRecOn with
  | nil =>
      intro _ _
      simp [run, refCountVal, init, nCreates, nReleases]
  | append_singleton l op ih =>
    intro Hbal Hlt
    have hlen : l.length ≤ (l ++ [op]).length := by simp
    have Hbal2 : ∀ k, k ≤ l.length → nReleases id (l.take k) ≤ nCreates id (l.take k) := by
      intro k hk
      have h2 := Hbal k (le_trans hk hlen)
      rwa [List.take_append_of_le_length hk] at h2
    have Hfull : nReleases id l ≤ nCreates id l := by
      have h2 := Hbal2 l.length le_rfl
      simpa using h2
    have Hlt2 : nCreates id l < USIZE := by
      have h3 := nCreates_append id l [op]
      omega
    obtain ⟨ihc, ihp⟩ := ih Hbal2 Hlt2
    rw [run_append]
    cases op with
    | create j =>
        by_cases hji : j = id
        · subst hji
          have hC : nCreates j (l ++ [Op.create j]) = nCreates j l + 1 := by
            rw [nCreates_append]; simp [nCreates]
          have hR : nReleases j (l ++ [Op.create j]) = nReleases j l := by
            rw [nReleases_append]; simp [nReleases]
          obtain ⟨hrc, hpres⟩ := step_refCount_create (run init l) j
          have hlt3 : nCreates j l + 1 < USIZE := by
            rw [hC] at Hlt
            exact Hlt
          constructor
          · rw [hrc, ihc, hC, hR, wrap_inc _ (by omega)]
            omega
          · rw [hC]
            simp [hpres]
        · have hC : nCreates id (l ++ [Op.create j]) = nCreates id l := by
            rw [nCreates_append]; simp [nCreates, hji]
          have hR : nReleases id (l ++ [Op.create j]) = nReleases id l := by
            rw [nReleases_append]; simp [nReleases]
          have hinst : (step (run init l) (Op.create j)).instances id = (run init l).instances id :=
            step_instances_other _ _ _ (by simpa [opTarget] using hji)
          constructor
          · rw [hC, hR, ← ihc]
            unfold refCountVal
            rw [hinst]
          · rw [hC, show ((step (run init l) (Op.create j)).instances id) = _ from hinst]
            exact ihp
    | release j =>
        by_cases hji : j = id
        · subst hji
          have hC : nCreates j (l ++ [Op.release j]) = nCreates j l := by
            rw [nCreates_append]; simp [nCreates]
          have hR : nReleases j (l ++ [Op.release j]) = nReleases j l + 1 := by
            rw [nReleases_append]; simp [nReleases]
          have hbound : nReleases j l + 1 ≤ nCreates j l := by
            have h4 := Hbal (l ++ [Op.release j]).length le_rfl
            rw [List.take_length, hC, hR] at h4
            exact h4
          have hpres : ((run init l).instances j).isSome := by
            rw [ihp]
            omega
          have hrc := step_refCount_release (run init l) j hpres
          constructor
          · rw [hrc, ihc, hC, hR, wrap_dec _ (by omega) (by omega)]
            omega
          · have hp2 := step_presence (run init l) (Op.release j) j (by intro j2 hh; cases hh)
            rw [hC, show (((step (run init l) (Op.release j)).instances j).isSome) = _ from hp2]
            exact ihp
        · have hC : nCreates id (l ++ [Op.release j]) = nCreates id l := by
            rw [nCreates_append]; simp [nCreates]
          have hR : nReleases id (l ++ [Op.release j]) = nReleases id l := by
            rw [nReleases_append]; simp [nReleases, hji]
          have hinst : (step (run init l) (Op.release j)).instances id = (run init l).instances id :=
            step_instances_other _ _ _ (by simpa [opTarget] using hji)
          constructor
          · rw [hC, hR, ← ihc]
            unfold refCountVal
            rw [hinst]
          · rw [hC, show ((step (run init l) (Op.release j)).instances id) = _ from hinst]
            exact ihp
    | suspend j =>
        have hC : nCreates id (l ++ [Op.suspend j]) = nCreates id l := by
          rw [nCreates_append]; simp [nCreates]
        have hR : nReleases id (l ++ [Op.suspend j]) = nReleases id l := by
          rw [nReleases_append]; simp [nReleases]
        have h1 := step_refCount_passive (run init l) (Op.suspend j) id
          (by intro j2; exact ⟨by simp, by simp⟩)
        have h2 := step_presence (run init l) (Op.suspend j) id (by intro j2 hh; cases hh)
        constructor
        · rw [hC, hR, h1]
          exact ihc
        · rw [hC, show (((step (run init l) (Op.suspend j)).instances id).isSome) = _ from h2]
          exact ihp
    | render j =>
        have hC : nCreates id (l ++ [Op.render j]) = nCreates id l := by
          rw [nCreates_append]; simp [nCreates]
        have hR : nReleases id (l ++ [Op.render j]) = nReleases id l := by
          rw [nReleases_append]; simp [nReleases]
        have h1 := step_refCount_passive (run init l) (Op.render j) id
          (by intro j2; exact ⟨by simp, by simp⟩)
        have h2 := step_presence (run init l) (Op.render j) id (by intro j2 hh; cases hh)
        constructor
        · rw [hC, hR, h1]
          exact ihc
        · rw [hC, show (((step (run init l) (Op.render j)).instances id).isSome) = _ from h2]
          exact ihp
    | resume j =>
        have hC : nCreates id (l ++ [Op.resume j]) = nCreates id l := by
          rw [nCreates_append]; simp [nCreates]
        have hR : nReleases id (l ++ [Op.resume j]) = nReleases id l := by
          rw [nReleases_append]; simp [nReleases]
        have h1 := step_refCount_passive (run init l) (Op.resume j) id
          (by intro j2; exact ⟨by simp, by simp⟩)
        have h2 := step_presence (run init l) (Op.resume j) id (by intro j2 hh; cases hh)
        constructor
        · rw [hC, hR, h1]
          exact ihc
        · rw [hC, show (((step (run init l) (Op.resume j)).instances id).isSome) = _ from h2]
          exact ihp
    | send j m =>
        have hC : nCreates id (l ++ [Op.send j m]) = nCreates id l := by
          rw [nCreates_append]; simp [nCreates]
        have hR : nReleases id (l ++ [Op.send j m]) = nReleases id l := by
          rw [nReleases_append]; simp [nReleases]
        have h1 := step_refCount_passive (run init l) (Op.send j m) id
          (by intro j2; exact ⟨by simp, by simp⟩)
        have h2 := step_presence (run init l) (Op.send j m) id (by intro j2 hh; cases hh)
        constructor
        · rw [hC, hR, h1]
          exact ihc
        · rw [hC, show (((step (run init l) (Op.send j m)).instances id).isSome) = _ from h2]
          exact ihp

/-!
The claims.
-/

/-- C1: claimed, releasing a slot whose reference count is 0 is
defensively guarded, with the decrement clamped at zero and no crash.  The
code contradicts this: `release` performs an unchecked `ref_count -= 1`.
Starting from the reachable state after one create and one release (count
0), a further release wraps the count to `2 ^ 64 - 1` under release-profile
semantics (not clamped at zero), and panics under the debug-profile
overflow check (`releaseChecked` / `checkedDecrement` return `none`). -/
theorem c1_release_underflow :
    refCountVal (run init [Op.create 0, Op.release 0]) 0 = 0 ∧
    refCountVal (BevyInstanceManager.release (run init [Op.create 0, Op.release 0]) 0) 0 =
      USIZE - 1 ∧
    BevyInstanceManager.releaseChecked (run init [Op.create 0, Op.release 0]) 0 = none ∧
    checkedDecrement 0 = none := by
  refine ⟨by rfl, by rfl, by rfl, rfl⟩

/-- C2: over every sequence of registry operations, each slot consumes its
deferred factory at most once (ghost counter `invokedFor` never exceeds 1);
a renderer is present only if some `resume` strictly followed a `create` of
the same identity; and a `create` step never changes the renderer field, so
construction never happens at mount time. -/
theorem c2_factory_once_lazy (ops : List Op) (id : Nat) :
    (run init ops).invokedFor id ≤ 1 ∧
    ((rendererOf (run init ops) id).isSome → createThenResume id ops = true) ∧
    (∀ s : MgrState, rendererOf (step s (Op.create id)) id = rendererOf s id) := by
  refine ⟨invoked_le_one ops id, fun h => renderer_origin ops id h, ?_⟩
  intro s
  cases hj : s.instances id with
  | some inst => simp [step, BevyInstanceManager.get_or_create, hj, upd, rendererOf]
  | none => simp [step, BevyInstanceManager.get_or_create, hj, upd, rendererOf]

/-- Witness for C2 at a concrete run: one create followed by one resume. -/
theorem c2_factory_once_lazy_witness :
    createThenResume 0 [Op.create 0, Op.resume 0] = true ∧
    (run init [Op.create 0, Op.resume 0]).invokedFor 0 ≤ 1 :=
  ⟨(c2_factory_once_lazy [Op.create 0, Op.resume 0] 0).2.1 (by rfl),
   (c2_factory_once_lazy [Op.create 0, Op.resume 0] 0).1⟩

/-- C3 counterexample: the claim quantifies over every registry state with
an existing slot, but at a slot whose count is `usize::MAX` (reachable in
release builds through the unguarded decrement of C1) the increment wraps
to 0 instead of adding exactly 1. -/
theorem c3_counterexample :
    refCountVal (run init [Op.create 0, Op.release 0, Op.release 0]) 0 = USIZE - 1 ∧
    refCountVal (step (run init [Op.create 0, Op.release 0, Op.release 0]) (Op.create 0)) 0 = 0 ∧
    refCountVal (step (run init [Op.create 0, Op.release 0, Op.release 0]) (Op.create 0)) 0 ≠
      refCountVal (run init [Op.create 0, Op.release 0, Op.release 0]) 0 + 1 := by
  refine ⟨by rfl, by rfl, ?_⟩
  intro h
  rw [show refCountVal (step (run init [Op.create 0, Op.release 0, Op.release 0]) (Op.create 0)) 0 = 0 from by rfl] at h
  rw [show refCountVal (run init [Op.create 0, Op.release 0, Op.release 0]) 0 = USIZE - 1 from by rfl] at h
  norm_num [USIZE] at h

/-- C3 (amended): in every registry state in which the identity already has
a slot whose reference count is below `usize::MAX`, `get_or_create`
increments that count by exactly 1, returns the adapter handle stored in
the slot, registers no new paint source (adapters and the fresh paint-id
supply untouched), and discards the factory argument without invoking it
(ghost invocation counter and renderer untouched). -/
theorem c3_existing_slot (s : MgrState) (id : Nat) (inst : BevyInstance)
    (h : s.instances id = some inst) (hlt : inst.ref_count + 1 < USIZE) :
    (BevyInstanceManager.get_or_create s id).2 = inst.paint_source_id ∧
    (BevyInstanceManager.get_or_create s id).1.instances id =
      some { inst with ref_count := inst.ref_count + 1 } ∧
    (∀ j, j ≠ id → (BevyInstanceManager.get_or_create s id).1.instances j = s.instances j) ∧
    (BevyInstanceManager.get_or_create s id).1.adapters = s.adapters ∧
    (BevyInstanceManager.get_or_create s id).1.nextPaintId = s.nextPaintId ∧
    (BevyInstanceManager.get_or_create s id).1.invokedFor = s.invokedFor ∧
    rendererOf (BevyInstanceManager.get_or_create s id).1 id = inst.renderer := by
  refine ⟨?_, ?_, ?_, ?_, ?_, ?_, ?_⟩
  · simp [BevyInstanceManager.get_or_create, h]
  · simp [BevyInstanceManager.get_or_create, h, upd, Nat.mod_eq_of_lt hlt]
  · intro j hj
    simp [BevyInstanceManager.get_or_create, h, upd, hj]
  · simp [BevyInstanceManager.get_or_create, h]
  · simp [BevyInstanceManager.get_or_create, h]
  · simp [BevyInstanceManager.get_or_create, h]
  · simp [BevyInstanceManager.get_or_create, h, upd, rendererOf]

/-- Witness for the amended C3 at a concrete state with one reference. -/
theorem c3_existing_slot_witness :
    (BevyInstanceManager.get_or_create (run init [Op.create 0]) 0).2 = some 0 ∧
    (BevyInstanceManager.get_or_create (run init [Op.create 0]) 0).1.instances 0 =
      some { renderer := none, paint_source_id := some 0, ref_count := 2 } := by
  have h := c3_existing_slot (run init [Op.create 0]) 0
    { renderer := none, paint_source_id := some 0, ref_count := 1 } (by rfl)
    (by norm_num [USIZE])
  exact ⟨h.1, h.2.1⟩

/-- C4: `release` on a present slot changes only that identity
reference count: the slot stays in the registry (also at count zero), its
renderer (including internal state) and stored paint-source id are
untouched, every other identity and the rest of the registry state are
untouched, and a subsequent `get_or_create` for the identity returns the
same slot with the very same renderer instance and the same stored
handle — nothing is reconstructed. -/
theorem c4_release_preserves_slot (s : MgrState) (id : Nat) (inst : BevyInstance)
    (h : s.instances id = some inst) :
    (∃ c, (BevyInstanceManager.release s id).instances id =
      some { renderer := inst.renderer, paint_source_id := inst.paint_source_id, ref_count := c }) ∧
    (∀ j, j ≠ id → (BevyInstanceManager.release s id).instances j = s.instances j) ∧
    (BevyInstanceManager.release s id).adapters = s.adapters ∧
    (BevyInstanceManager.release s id).nextPaintId = s.nextPaintId ∧
    (BevyInstanceManager.release s id).nextTok = s.nextTok ∧
    (BevyInstanceManager.release s id).invokedFor = s.invokedFor ∧
    rendererOf (BevyInstanceManager.release s id) id = inst.renderer ∧
    rendererOf (BevyInstanceManager.get_or_create (BevyInstanceManager.release s id) id).1 id =
      inst.renderer ∧
    (BevyInstanceManager.get_or_create (BevyInstanceManager.release s id) id).2 =
      inst.paint_source_id := by
  refine ⟨⟨(inst.ref_count + (USIZE - 1)) % USIZE, ?_⟩, ?_, ?_, ?_, ?_, ?_, ?_, ?_, ?_⟩
  · simp [BevyInstanceManager.release, h, upd]
  · intro j hj
    simp [BevyInstanceManager.release, h, upd, hj]
  · simp [BevyInstanceManager.release, h]
  · simp [BevyInstanceManager.release, h]
  · simp [BevyInstanceManager.release, h]
  · simp [BevyInstanceManager.release, h]
  · simp [BevyInstanceManager.release, h, upd, rendererOf]
  · simp [BevyInstanceManager.release, BevyInstanceManager.get_or_create, h, upd, rendererOf]
  · simp [BevyInstanceManager.release, BevyInstanceManager.get_or_create, h, upd]

/-- Witness for C4 realizing the spec scenario: create twice, resume,
message, release to zero, then create again — the renderer instance with
its message log persists and the stored handle is returned. -/
theorem c4_release_preserves_slot_witness :
    rendererOf (BevyInstanceManager.get_or_create (BevyInstanceManager.release
      (run init [Op.create 0, Op.create 0, Op.resume 0, Op.send 0 7, Op.release 0]) 0) 0).1 0 =
      some { tok := 0, msgs := [7], resumes := 1, suspends := 0, renders := 0, shutdowns := 0 } ∧
    (BevyInstanceManager.get_or_create (BevyInstanceManager.release
      (run init [Op.create 0, Op.create 0, Op.resume 0, Op.send 0 7, Op.release 0]) 0) 0).2 =
      some 0 := by
  have h := c4_release_preserves_slot
    (run init [Op.create 0, Op.create 0, Op.resume 0, Op.send 0 7, Op.release 0]) 0
    { renderer := some { tok := 0, msgs := [7], resumes := 1, suspends := 0, renders := 0, shutdowns := 0 },
      paint_source_id := some 0, ref_count := 1 } (by rfl)
  exact ⟨h.2.2.2.2.2.2.2.1, h.2.2.2.2.2.2.2.2⟩

/-- C6: `send_message` forwards the payload through `handle_message`
exactly when the slot exists and its renderer is constructed — the message
is appended to that renderer log and nothing else in the registry
changes; with no slot, or with a renderer not yet constructed, the message
is dropped and the state is exactly unchanged. -/
theorem c6_send_message_dispatch (s : MgrState) (id m : Nat) :
    (∀ inst r, s.instances id = some inst → inst.renderer = some r →
      rendererOf (BevyInstanceManager.send_message s id m) id =
        some { r with msgs := r.msgs ++ [m] } ∧
      (∀ j, j ≠ id → (BevyInstanceManager.send_message s id m).instances j = s.instances j) ∧
      (BevyInstanceManager.send_message s id m).adapters = s.adapters ∧
      (BevyInstanceManager.send_message s id m).invokedFor = s.invokedFor) ∧
    (s.instances id = none → BevyInstanceManager.send_message s id m = s) ∧
    (∀ inst, s.instances id = some inst → inst.renderer = none →
      BevyInstanceManager.send_message s id m = s) := by
  refine ⟨?_, ?_, ?_⟩
  · intro inst r h hr
    refine ⟨?_, ?_, ?_, ?_⟩
    · simp [BevyInstanceManager.send_message, h, hr, upd, rendererOf, Renderer.handle_message]
    · intro j hj
      simp [BevyInstanceManager.send_message, h, hr, upd, hj]
    · simp [BevyInstanceManager.send_message, h, hr]
    · simp [BevyInstanceManager.send_message, h, hr]
  · intro h
    simp [BevyInstanceManager.send_message, h]
  · intro inst h hr
    simp [BevyInstanceManager.send_message, h, hr]

/-- Witness for C6: delivery after construction, silent drop before. -/
theorem c6_send_message_dispatch_witness :
    rendererOf (BevyInstanceManager.send_message (run init [Op.create 0, Op.resume 0]) 0 5) 0 =
      some { tok := 0, msgs := [5], resumes := 1, suspends := 0, renders := 0, shutdowns := 0 } ∧
    BevyInstanceManager.send_message (run init [Op.create 0]) 0 5 = run init [Op.create 0] := by
  constructor
  · have h := (c6_send_message_dispatch (run init [Op.create 0, Op.resume 0]) 0 5).1
      { renderer := some { tok := 0, msgs := [], resumes := 1, suspends := 0, renders := 0, shutdowns := 0 },
        paint_source_id := some 0, ref_count := 1 }
      { tok := 0, msgs := [], resumes := 1, suspends := 0, renders := 0, shutdowns := 0 }
      (by rfl) (by rfl)
    exact h.1
  · exact (c6_send_message_dispatch (run init [Op.create 0]) 0 5).2.2
      { renderer := none, paint_source_id := some 0, ref_count := 1 } (by rfl) (by rfl)

/-- C7: for any renderer behaviour `rr`, the paint adapter render call
returns exactly the renderer result when the slot exists and its renderer
is constructed, and returns nothing — with the whole registry state
unchanged and no error or panic path — when the slot is absent or the
renderer is not yet constructed. -/
theorem c7_render_dispatch (rr : Renderer → Renderer × Option Nat) (s : MgrState) (id : Nat) :
    (∀ inst r, s.instances id = some inst → inst.renderer = some r →
      (renderWith rr s id).2 = (rr r).2) ∧
    (s.instances id = none → renderWith rr s id = (s, none)) ∧
    (∀ inst, s.instances id = some inst → inst.renderer = none →
      renderWith rr s id = (s, none)) := by
  refine ⟨?_, ?_, ?_⟩
  · intro inst r h hr
    simp [renderWith, h, hr]
  · intro h
    simp [renderWith, h]
  · intro inst h hr
    simp [renderWith, h, hr]

/-- Witness for C7: a constructed renderer yields its texture handle, an
unconstructed one yields nothing with the state unchanged. -/
theorem c7_render_dispatch_witness :
    (renderWith Renderer.render (run init [Op.create 0, Op.resume 0]) 0).2 = some 0 ∧
    renderWith Renderer.render (run init [Op.create 0]) 0 = (run init [Op.create 0], none) := by
  constructor
  · exact (c7_render_dispatch Renderer.render (run init [Op.create 0, Op.resume 0]) 0).1
      { renderer := some { tok := 0, msgs := [], resumes := 1, suspends := 0, renders := 0, shutdowns := 0 },
        paint_source_id := some 0, ref_count := 1 }
      { tok := 0, msgs := [], resumes := 1, suspends := 0, renders := 0, shutdowns := 0 }
      (by rfl) (by rfl)
  · exact (c7_render_dispatch Renderer.render (run init [Op.create 0]) 0).2.2
      { renderer := none, paint_source_id := some 0, ref_count := 1 } (by rfl) (by rfl)

/-- C5 counterexample: a release that precedes the first create of the
identity is silently skipped (`release` is a no-op on an absent slot), so
for the sequence release-then-create we have N = M = 1 but the final count
is 1, not N - M = 0. -/
theorem c5_counterexample :
    nCreates 0 [Op.release 0, Op.create 0] = 1 ∧
    nReleases 0 [Op.release 0, Op.create 0] = 1 ∧
    refCountVal (run init [Op.release 0, Op.create 0]) 0 = 1 ∧
    refCountVal (run init [Op.release 0, Op.create 0]) 0 ≠
      nCreates 0 [Op.release 0, Op.create 0] - nReleases 0 [Op.release 0, Op.create 0] := by
  refine ⟨by rfl, by rfl, by rfl, by decide⟩

/-- C5 (amended): for every operation sequence in which each release of
the identity is preceded by a matching create (every prefix has at least
as many creates as releases of that identity) and the total number of
creates stays below `2 ^ 64`, the reference count equals
creates-minus-releases at the end and after every prefix — in particular
it never underflows and is never negative. -/
theorem c5_refcount_balance (ops : List Op) (id : Nat)
    (Hbal : ∀ k, k ≤ ops.length → nReleases id (ops.take k) ≤ nCreates id (ops.take k))
    (Hlt : nCreates id ops < USIZE) :
    refCountVal (run init ops) id = nCreates id ops - nReleases id ops ∧
    (∀ k, k ≤ ops.length →
      refCountVal (run init (ops.take k)) id =
        nCreates id (ops.take k) - nReleases id (ops.take k)) := by
  have hmain := refcount_tracks id ops Hbal Hlt
  refine ⟨hmain.1, ?_⟩
  intro k hk
  have Hbal2 : ∀ k2, k2 ≤ (ops.take k).length →
      nReleases id ((ops.take k).take k2) ≤ nCreates id ((ops.take k).take k2) := by
    intro k2 hk2
    rw [List.take_take]
    exact Hbal (min k2 k) (le_trans (min_le_right _ _) hk)
  have Hlt2 : nCreates id (ops.take k) < USIZE := by
    have h3 := nCreates_append id (ops.take k) (ops.drop k)
    rw [List.take_append_drop] at h3
    omega
  exact (refcount_tracks id (ops.take k) Hbal2 Hlt2).1

/-- Witness for the amended C5: two creates and one release give count 1,
matching N - M. -/
theorem c5_refcount_balance_witness :
    refCountVal (run init [Op.create 0, Op.create 0, Op.release 0]) 0 =
      nCreates 0 [Op.create 0, Op.create 0, Op.release 0] -
        nReleases 0 [Op.create 0, Op.create 0, Op.release 0] :=
  (c5_refcount_balance [Op.create 0, Op.create 0, Op.release 0] 0
    (by
      intro k hk
      have hk3 : k ≤ 3 := by simpa using hk
      interval_cases k <;> decide)
    (by norm_num [nCreates, USIZE])).1

/-- C8: no registry operation ever invokes shutdown — every slot reachable
in the registry has a renderer with zero shutdown calls — and at slot
destruction (`Drop`) shutdown runs exactly once if a renderer was
constructed and not at all for a slot whose renderer was never
constructed. -/
theorem c8_shutdown_once (ops : List Op) (id : Nat) (inst : BevyInstance)
    (h : (run init ops).instances id = some inst) :
    shutdownCount inst = 0 ∧
    shutdownCount (BevyInstance.drop inst) = (if (inst.renderer).isSome then 1 else 0) ∧
    (inst.renderer = none → BevyInstance.drop inst = inst) := by
  have inv := regInv_reachable ops
  refine ⟨?_, ?_, ?_⟩
  · cases hr : inst.renderer with
    | none => simp [shutdownCount, hr]
    | some r =>
        have h0 := inv.noShut id r (by simp [rendererOf, h, hr])
        simp [shutdownCount, hr, h0]
  · cases hr : inst.renderer with
    | none => simp [shutdownCount, BevyInstance.drop, hr]
    | some r =>
        have h0 := inv.noShut id r (by simp [rendererOf, h, hr])
        simp [shutdownCount, BevyInstance.drop, hr, Renderer.shutdown, h0]
  · intro hr
    simp [BevyInstance.drop, hr]

/-- Witness for C8 on a slot with a constructed renderer and on the
recorded shape of its destruction. -/
theorem c8_shutdown_once_witness :
    shutdownCount
      { renderer := some { tok := 0, msgs := [], resumes := 1, suspends := 0, renders := 0, shutdowns := 0 },
        paint_source_id := some 0, ref_count := 1 } = 0 ∧
    shutdownCount
      (BevyInstance.drop
        { renderer := some { tok := 0, msgs := [], resumes := 1, suspends := 0, renders := 0, shutdowns := 0 },
          paint_source_id := some 0, ref_count := 1 }) = 1 := by
  have h := c8_shutdown_once [Op.create 0, Op.resume 0] 0
    { renderer := some { tok := 0, msgs := [], resumes := 1, suspends := 0, renders := 0, shutdowns := 0 },
      paint_source_id := some 0, ref_count := 1 } (by rfl)
  exact ⟨h.1, h.2.1⟩

/-- In a state satisfying the invariant, a constructed renderer determines
the slot token. -/
theorem slotTok_of_renderer {s : MgrState} (inv : RegInv s) (i : Nat) (r : Renderer)
    (h : rendererOf s i = some r) : slotTok s i = some r.tok := by
  cases hA : s.adapters i with
  | none =>
      have hl := inv.link i
      rw [hA] at hl
      cases hj : s.instances i with
      | none => simp [rendererOf, hj] at h
      | some inst => rw [hj] at hl; simp at hl
  | some ad =>
      cases hf : ad.factory with
      | some t =>
          obtain ⟨_, h2, _⟩ := inv.pend i ad t hA hf
          rw [h2] at h
          exact absurd h (by simp)
      | none => simp [slotTok, hA, hf, h]

/-- C9: in every reachable state, two distinct identities never share a
renderer: their constructed renderers carry distinct factory-invocation
tokens; and a message sent to one identity leaves the slot of the other
identity exactly unchanged. -/
theorem c9_identity_isolation (ops : List Op) (a b : Nat) (hab : a ≠ b)
    (ra rb : Renderer)
    (hra : rendererOf (run init ops) a = some ra)
    (hrb : rendererOf (run init ops) b = some rb) :
    ra.tok ≠ rb.tok ∧
    (∀ m, (BevyInstanceManager.send_message (run init ops) a m).instances b =
      (run init ops).instances b) := by
  have inv := regInv_reachable ops
  constructor
  · exact inv.inj a b ra.tok rb.tok hab
      (slotTok_of_renderer inv a ra hra) (slotTok_of_renderer inv b rb hrb)
  · intro m
    cases hj : (run init ops).instances a with
    | none => simp [BevyInstanceManager.send_message, hj]
    | some inst =>
      cases hr : inst.renderer with
      | none => simp [BevyInstanceManager.send_message, hj, hr]
      | some r =>
          simp [BevyInstanceManager.send_message, hj, hr, upd,
            show ¬ b = a from fun hh => hab hh.symm]

/-- Witness for C9: identities 0 and 1, each created and resumed, hold
renderers with distinct tokens, and a message to 0 leaves slot 1 alone. -/
theorem c9_identity_isolation_witness :
    ({ tok := 0, msgs := [], resumes := 1, suspends := 0, renders := 0, shutdowns := 0 } : Renderer).tok ≠
      ({ tok := 1, msgs := [], resumes := 1, suspends := 0, renders := 0, shutdowns := 0 } : Renderer).tok ∧
    (BevyInstanceManager.send_message
        (run init [Op.create 0, Op.resume 0, Op.create 1, Op.resume 1]) 0 9).instances 1 =
      (run init [Op.create 0, Op.resume 0, Op.create 1, Op.resume 1]).instances 1 := by
  have h := c9_identity_isolation [Op.create 0, Op.resume 0, Op.create 1, Op.resume 1] 0 1
    (by decide)
    { tok := 0, msgs := [], resumes := 1, suspends := 0, renders := 0, shutdowns := 0 }
    { tok := 1, msgs := [], resumes := 1, suspends := 0, renders := 0, shutdowns := 0 }
    (by rfl) (by rfl)
  exact ⟨h.1, h.2 9⟩

/-- C10: every slot ever stored in the registry carries a Some
paint-source id from insertion on, and the id is never cleared, so the
`expect("Paint source not registered")` on the existing-slot path of
`get_or_create` cannot fire in any reachable state: the returned handle is
always Some. -/
theorem c10_paint_source_total (ops : List Op) (id : Nat) :
    (∀ inst, (run init ops).instances id = some inst → (inst.paint_source_id).isSome) ∧
    ((BevyInstanceManager.get_or_create (run init ops) id).2).isSome := by
  have inv := regInv_reachable ops
  constructor
  · intro inst h
    exact inv.pid id inst h
  · cases hj : (run init ops).instances id with
    | none => simp [BevyInstanceManager.get_or_create, hj]
    | some inst =>
        have hp := inv.pid id inst hj
        simpa [BevyInstanceManager.get_or_create, hj] using hp

/-- Witness for C10 at a concrete reachable state. -/
theorem c10_paint_source_total_witness :
    ((BevyInstanceManager.get_or_create (run init [Op.create 0]) 0).2).isSome ∧
    (({ renderer := none, paint_source_id := some 0, ref_count := 1 } : BevyInstance).paint_source_id).isSome := by
  have h := c10_paint_source_total [Op.create 0] 0
  exact ⟨h.2, h.1 { renderer := none, paint_source_id := some 0, ref_count := 1 } (by rfl)⟩
